import Mathlib

/-!
Verification of the order-slicing execution strategies in
`qlib/contrib/strategy/rule_strategy.py` (`TWAPStrategy`, `SBBStrategy`,
`SBBEMAStrategy`), as a shallow embedding in Lean.

Modelling conventions:
* Timestamps are integers (seconds); `pd.Timedelta(seconds=1)` subtraction is `- 1`.
* Order amounts are natural numbers; Python `//` is `Nat` division.
* The per-key dictionaries `trade_amount` / `trade_trend` are total functions
  `TradeKey → _` built by successive pointwise updates, mirroring Python dict
  assignment (later assignments overwrite earlier ones).  The strategies only
  ever read keys that were registered, so the default value is never observed.
* Fallible operations (calendar index lookups, reset) return `Except`.
-/

namespace RuleStrategy

abbrev StockId := String

/-- Order direction; in the source `Order.SELL = 0`, `Order.BUY = 1` ("1 for buy"). -/
inductive Direction
  | sell
  | buy
deriving DecidableEq, Repr

/-- A `(stock_id, direction)` pair, the dictionary key used by both strategies. -/
abbrev TradeKey := StockId × Direction

/-- Trend classification; in the source `TREND_MID = 0`, `TREND_SHORT = 1`, `TREND_LONG = 2`. -/
inductive Trend
  | mid
  | short
  | long
deriving DecidableEq, Repr

/-- A parent order as consumed from `self.trade_order_list`: the fields the
strategies read are `stock_id`, `direction`, `amount` and `factor`. -/
structure ParentOrder where
  stock_id : StockId
  direction : Direction
  amount : Nat
  factor : Int
deriving DecidableEq, Repr

/-- A child order as constructed by `Order(...)` in `generate_order_list`. -/
structure Order where
  stock_id : StockId
  amount : Nat
  start_time : Int
  end_time : Int
  direction : Direction
  factor : Int
deriving DecidableEq, Repr

/-- Failure modes surfaced by the embedding.  `stepOutOfRange` is an
out-of-range calendar index (`IndexError` on `self.trade_dates[...]`);
`duplicateKey` is the spec's `DuplicateKey` reset failure. -/
inductive StrategyError
  | stepOutOfRange
  | duplicateKey
deriving DecidableEq, Repr

def tradeKey (o : ParentOrder) : TradeKey := (o.stock_id, o.direction)

/-- Indexing into `self.trade_dates`; an out-of-range index raises. -/
def dateAt (trade_dates : List Int) (i : Nat) : Except StrategyError Int :=
  match trade_dates[i]? with
  | some t => Except.ok t
  | none => Except.error StrategyError.stepOutOfRange

/-- One Python dict assignment `m[k] = v` on a total-function model of the dict. -/
def trendInsert (m : TradeKey → Trend) (k : TradeKey) (t : Trend) : TradeKey → Trend :=
  fun k1 => if k1 = k then t else m k1

/-- The `__init__` loop of both strategies
(`self.trade_amount[(order.stock_id, order.direction)] = order.amount // self.trade_len`),
as a total function with default `0` (the strategies only read registered keys). -/
def mkTradeAmount (trade_len : Nat) (orders : List ParentOrder) : TradeKey → Nat :=
  orders.foldl (fun m o k => if k = tradeKey o then o.amount / trade_len else m k)
    (fun _ => 0)

/-- The child order built by the `Order(...)` constructor calls: `stock_id`,
`direction` and `factor` come from the parent, `amount` is the argument,
times are the current step's bounds. -/
def mkChild (o : ParentOrder) (amount : Nat) (ts te : Int) : Order :=
  { stock_id := o.stock_id
    amount := amount
    start_time := ts
    end_time := te
    direction := o.direction
    factor := o.factor }

/-- The `TWAPStrategy.generate_order_list` method (lines 29-44): reads the current step's
bounds from `trade_dates[trade_index - 1]` and `trade_dates[trade_index]`, then
emits one child order per parent order with the precomputed per-step amount. -/
def twapGenerateOrderList (trade_order_list : List ParentOrder)
    (trade_amount : TradeKey → Nat) (trade_dates : List Int) (trade_index : Nat) :
    Except StrategyError (List Order) := do
  let trade_start_time ← dateAt trade_dates (trade_index - 1)
  let trade_end_time ← dateAt trade_dates trade_index
  Except.ok (trade_order_list.map
    (fun o => mkChild o (trade_amount (tradeKey o)) trade_start_time trade_end_time))

/-- The per-order emission of `SBBStrategy.generate_order_list` (lines 88-120):
given the effective trend for the key, `MID` emits the base amount; otherwise the
odd phase emits a doubled order for (SHORT, SELL) or (LONG, BUY) and nothing else,
and the even phase emits a doubled order for (SHORT, BUY) or (LONG, SELL). -/
def sbbOrderEmission (trade_index : Nat) (t : Trend) (o : ParentOrder) (amt : Nat)
    (ts te : Int) : List Order :=
  if t = Trend.mid then
    [mkChild o amt ts te]
  else if trade_index % 2 = 1 then
    if (t = Trend.short ∧ o.direction = Direction.sell) ∨
        (t = Trend.long ∧ o.direction = Direction.buy) then
      [mkChild o (2 * amt) ts te]
    else []
  else
    if (t = Trend.short ∧ o.direction = Direction.buy) ∨
        (t = Trend.long ∧ o.direction = Direction.sell) then
      [mkChild o (2 * amt) ts te]
    else []

/-- The `for order in self.trade_order_list` loop of
`SBBStrategy.generate_order_list`: per order, the effective trend is the
predictor's answer on odd steps — called as `self._pred_price_trend(order.stock_id)`,
i.e. with `pred_start_time=None, pred_end_time=None` — and the stored
`trade_trend` entry on even steps; orders are appended per the emission rule and
on odd steps the effective trend is written back into `trade_trend` (lines 121-122,
reading the intended `if ...: ` through the source's missing colon). -/
def sbbLoop (pred : StockId → Option Int → Option Int → Trend)
    (trade_amount : TradeKey → Nat) (trade_index : Nat) (ts te : Int) :
    List ParentOrder → List Order × (TradeKey → Trend) →
      List Order × (TradeKey → Trend)
  | [], acc => acc
  | o :: rest, (orders, trend) =>
    let k := tradeKey o
    let t := if trade_index % 2 = 1 then pred o.stock_id none none else trend k
    let orders1 := orders ++ sbbOrderEmission trade_index t o (trade_amount k) ts te
    let trend1 := if trade_index % 2 = 1 then trendInsert trend k t else trend
    sbbLoop pred trade_amount trade_index ts te rest (orders1, trend1)

/-- Lines 78-81 of `SBBStrategy.generate_order_list`: the prediction window
computed before the loop — `(None, trade_start_time - 1s)` on step 1, else
`(trade_dates[trade_index - 2], trade_start_time - 1s)`.  The loop body never
passes this window to `_pred_price_trend`. -/
def sbbComputedPredWindow (trade_dates : List Int) (trade_index : Nat)
    (trade_start_time : Int) : Except StrategyError (Option Int × Int) :=
  if trade_index = 1 then
    Except.ok (none, trade_start_time - 1)
  else do
    let d ← dateAt trade_dates (trade_index - 2)
    Except.ok (some d, trade_start_time - 1)

/-- The `SBBStrategy.generate_order_list` method (lines 76-124): computes the (unused)
prediction window, then runs the per-order loop, returning the emitted child
orders and the updated `trade_trend` state. -/
def sbbGenerateOrderList (pred : StockId → Option Int → Option Int → Trend)
    (trade_order_list : List ParentOrder) (trade_amount : TradeKey → Nat)
    (trade_trend : TradeKey → Trend) (trade_dates : List Int) (trade_index : Nat)
    (trade_start_time trade_end_time : Int) :
    Except StrategyError (List Order × (TradeKey → Trend)) := do
  let _window ← sbbComputedPredWindow trade_dates trade_index trade_start_time
  Except.ok (sbbLoop pred trade_amount trade_index trade_start_time trade_end_time
    trade_order_list ([], trade_trend))

/-- The `SBBEMAStrategy._pred_price_trend` method (lines 154-161).  The call to
`sample_feature(self.signal, stock_id, start_time=..., end_time=..., fields="signal",
method="last")` is abstracted as the function `signal`, returning `none` when the
sampled frame is empty and `some x` for the sampled value `_sample_signal.iloc[0, 0]`. -/
def sbbemaPredPriceTrend (signal : StockId → Option Int → Option Int → Option ℚ)
    (stock_id : StockId) (pred_start_time pred_end_time : Option Int) : Trend :=
  match signal stock_id pred_start_time pred_end_time with
  | none => Trend.mid
  | some x => if 0 < x then Trend.long else Trend.short

/-- Whether two registered parent orders share the same `(stock_id, direction)` key. -/
def hasDuplicateKey : List ParentOrder → Bool
  | [] => false
  | o :: rest =>
    rest.any (fun o2 => decide (tradeKey o2 = tradeKey o)) || hasDuplicateKey rest

/-- Modelled from the spec: `TradingEnhancement.reset` lives in
`qlib/strategy/base.py`, which is not part of the fragment; per the spec (§6, §7)
it registers the parent-order list and fails with `DuplicateKey` when two parent
orders share the same `(security_id, direction)` pair. -/
def tradingEnhancementReset (trade_order_list : List ParentOrder) :
    Except StrategyError (List ParentOrder) :=
  if hasDuplicateKey trade_order_list then Except.error StrategyError.duplicateKey
  else Except.ok trade_order_list

/-- The `TWAPStrategy.__init__` constructor (lines 12-23): reset (registering the parent orders),
then build the `trade_amount` map by floor division. -/
def twapInit (trade_len : Nat) (trade_order_list : List ParentOrder) :
    Except StrategyError (TradeKey → Nat) := do
  let ol ← tradingEnhancementReset trade_order_list
  Except.ok (mkTradeAmount trade_len ol)

/-- The `SBBStrategy.__init__` constructor (lines 54-67): reset, then build `trade_amount`
by floor division and set `trade_trend` to `TREND_MID` for every registered key. -/
def sbbInit (trade_len : Nat) (trade_order_list : List ParentOrder) :
    Except StrategyError ((TradeKey → Nat) × (TradeKey → Trend)) := do
  let ol ← tradingEnhancementReset trade_order_list
  Except.ok (mkTradeAmount trade_len ol,
    ol.foldl (fun m o => trendInsert m (tradeKey o) Trend.mid) (fun _ => Trend.mid))

/-! ### TWAP conservation machinery -/

/-- Whether a child order belongs to the given trade key. -/
def matchKey (k : TradeKey) (ord : Order) : Bool :=
  decide (ord.stock_id = k.1) && decide (ord.direction = k.2)

/-- Number of registered parent orders with the given key. -/
def countKey (l : List ParentOrder) (k : TradeKey) : Nat :=
  l.countP (fun o => decide (tradeKey o = k))

/-- Total amount of the child orders for a key within one step's output. -/
def amountForKey (orders : List Order) (k : TradeKey) : Nat :=
  ((orders.filter (matchKey k)).map Order.amount).sum

/-- Amount emitted for a key by the TWAP call at a given step (0 when the call fails). -/
def twapEmittedForKey (ol : List ParentOrder) (amt : TradeKey → Nat)
    (trade_dates : List Int) (i : Nat) (k : TradeKey) : Nat :=
  match twapGenerateOrderList ol amt trade_dates i with
  | Except.ok l => amountForKey l k
  | Except.error _ => 0

/-! ### Concrete fixtures used by the witness theorems -/

def wOrder : ParentOrder :=
  { stock_id := "AAPL", direction := Direction.buy, amount := 100, factor := 2 }

def wOrderSell : ParentOrder :=
  { stock_id := "AAPL", direction := Direction.sell, amount := 90, factor := 3 }

def wDates : List Int := [0, 10, 20, 30]

def wKey : TradeKey := ("AAPL", Direction.buy)

def wAmt : TradeKey → Nat := mkTradeAmount 3 [wOrder]

def wPredLong : StockId → Option Int → Option Int → Trend := fun _ _ _ => Trend.long

def wPredMid : StockId → Option Int → Option Int → Trend := fun _ _ _ => Trend.mid

def wTrMid : TradeKey → Trend := fun _ => Trend.mid

def wC2List : List Order := [mkChild wOrder (2 * wAmt (tradeKey wOrder)) 0 10]

def wC2Trend : TradeKey → Trend := trendInsert wTrMid (tradeKey wOrder) Trend.long

/-- A predictor that answers LONG exactly when both window bounds are `None`
(the arguments the loop actually passes) and MID on every proper window. -/
def wPredSensitive : StockId → Option Int → Option Int → Trend :=
  fun _ ps pe => if ps = none ∧ pe = none then Trend.long else Trend.mid

/-- A duplicate of `wOrder`'s key with a different amount. -/
def wOrderDup : ParentOrder :=
  { stock_id := "AAPL", direction := Direction.buy, amount := 50, factor := 1 }

def wTwapList : List Order := [mkChild wOrder (wAmt (tradeKey wOrder)) 0 10]

/-! ### Closed forms for the SBB per-order loop -/

/-- Orders emitted by an even step: each key's stored trend drives its emission. -/
def evenEmits (trade_amount : TradeKey → Nat) (trade_index : Nat) (ts te : Int)
    (trend : TradeKey → Trend) : List ParentOrder → List Order
  | [] => []
  | o :: rest =>
    sbbOrderEmission trade_index (trend (tradeKey o)) o (trade_amount (tradeKey o)) ts te
      ++ evenEmits trade_amount trade_index ts te trend rest

/-- Orders emitted by an odd step: each order's emission is driven by the
predictor called at `(none, none)`. -/
def oddEmits (pred : StockId → Option Int → Option Int → Trend)
    (trade_amount : TradeKey → Nat) (trade_index : Nat) (ts te : Int) :
    List ParentOrder → List Order
  | [] => []
  | o :: rest =>
    sbbOrderEmission trade_index (pred o.stock_id none none) o
        (trade_amount (tradeKey o)) ts te
      ++ oddEmits pred trade_amount trade_index ts te rest

/-- Trend map after an odd step's writes. -/
def oddTrendFold (pred : StockId → Option Int → Option Int → Trend) :
    List ParentOrder → (TradeKey → Trend) → TradeKey → Trend
  | [], tr => tr
  | o :: rest, tr =>
    oddTrendFold pred rest (trendInsert tr (tradeKey o) (pred o.stock_id none none))

theorem sbbLoop_even_eq (pred : StockId → Option Int → Option Int → Trend)
    (amt : TradeKey → Nat) (i : Nat) (ts te : Int) (hi : i % 2 ≠ 1) :
    ∀ (l : List ParentOrder) (acc : List Order) (tr : TradeKey → Trend),
      sbbLoop pred amt i ts te l (acc, tr) = (acc ++ evenEmits amt i ts te tr l, tr) := by
  intro l
  induction l with
  | nil => intro acc tr; simp [sbbLoop, evenEmits]
  | cons o rest ih =>
    intro acc tr
    simp only [sbbLoop, evenEmits, if_neg hi, ih, List.append_assoc]

theorem sbbLoop_odd_eq (pred : StockId → Option Int → Option Int → Trend)
    (amt : TradeKey → Nat) (i : Nat) (ts te : Int) (hi : i % 2 = 1) :
    ∀ (l : List ParentOrder) (acc : List Order) (tr : TradeKey → Trend),
      sbbLoop pred amt i ts te l (acc, tr) =
        (acc ++ oddEmits pred amt i ts te l, oddTrendFold pred l tr) := by
  intro l
  induction l with
  | nil => intro acc tr; simp [sbbLoop, oddEmits, oddTrendFold]
  | cons o rest ih =>
    intro acc tr
    simp only [sbbLoop, oddEmits, oddTrendFold, if_pos hi, ih, List.append_assoc]

theorem oddTrendFold_not_mem (pred : StockId → Option Int → Option Int → Trend)
    (k : TradeKey) :
    ∀ (l : List ParentOrder) (tr : TradeKey → Trend),
      (∀ o ∈ l, tradeKey o ≠ k) → oddTrendFold pred l tr k = tr k := by
  intro l
  induction l with
  | nil => intro tr _; rfl
  | cons o rest ih =>
    intro tr h
    have hk : tradeKey o ≠ k := h o (List.mem_cons_self o rest)
    have := ih (trendInsert tr (tradeKey o) (pred o.stock_id none none))
      (fun o2 h2 => h o2 (List.mem_cons_of_mem o h2))
    simpa [oddTrendFold, trendInsert, Ne.symm hk] using this

theorem oddTrendFold_mem (pred : StockId → Option Int → Option Int → Trend)
    (k : TradeKey) :
    ∀ (l : List ParentOrder) (tr : TradeKey → Trend),
      (∃ o ∈ l, tradeKey o = k) → oddTrendFold pred l tr k = pred k.1 none none := by
  intro l
  induction l with
  | nil => intro tr h; exact absurd h (by simp)
  | cons o rest ih =>
    intro tr h
    by_cases hrest : ∃ o2 ∈ rest, tradeKey o2 = k
    · simpa [oddTrendFold] using ih _ hrest
    · rcases h with ⟨o0, ho0, hk0⟩
      rcases List.mem_cons.mp ho0 with h0 | h0
      · subst h0
        push_neg at hrest
        have : oddTrendFold pred rest
            (trendInsert tr (tradeKey o0) (pred o0.stock_id none none)) k =
            trendInsert tr (tradeKey o0) (pred o0.stock_id none none) k :=
          oddTrendFold_not_mem pred k rest _ hrest
        rw [oddTrendFold, this, trendInsert, if_pos hk0.symm, ← hk0]
        rfl
      · exact absurd ⟨o0, h0, hk0⟩ hrest

theorem sbbOrderEmission_mid (i : Nat) (o : ParentOrder) (a : Nat) (ts te : Int) :
    sbbOrderEmission i Trend.mid o a ts te = [mkChild o a ts te] := by
  simp [sbbOrderEmission]

theorem sbbOrderEmission_mem (i : Nat) (t : Trend) (o : ParentOrder) (a : Nat)
    (ts te : Int) (ord : Order) (h : ord ∈ sbbOrderEmission i t o a ts te) :
    ord = mkChild o (if t = Trend.mid then a else 2 * a) ts te := by
  unfold sbbOrderEmission at h
  by_cases ht : t = Trend.mid <;>
    simp only [ht, if_pos, if_neg, reduceIte] at h ⊢ <;>
    first
      | simpa using h
      | (split at h <;> split at h <;> simp_all)

theorem mem_evenEmits (amt : TradeKey → Nat) (i : Nat) (ts te : Int)
    (tr : TradeKey → Trend) (ord : Order) :
    ∀ l : List ParentOrder, ord ∈ evenEmits amt i ts te tr l →
      ∃ o ∈ l, ord ∈ sbbOrderEmission i (tr (tradeKey o)) o (amt (tradeKey o)) ts te := by
  intro l
  induction l with
  | nil => intro h; simp [evenEmits] at h
  | cons o rest ih =>
    intro h
    rcases List.mem_append.mp h with h1 | h1
    · exact ⟨o, List.mem_cons_self o rest, h1⟩
    · rcases ih h1 with ⟨o2, ho2, hm⟩
      exact ⟨o2, List.mem_cons_of_mem o ho2, hm⟩

theorem mem_oddEmits (pred : StockId → Option Int → Option Int → Trend)
    (amt : TradeKey → Nat) (i : Nat) (ts te : Int) (ord : Order) :
    ∀ l : List ParentOrder, ord ∈ oddEmits pred amt i ts te l →
      ∃ o ∈ l, ord ∈ sbbOrderEmission i (pred o.stock_id none none) o
        (amt (tradeKey o)) ts te := by
  intro l
  induction l with
  | nil => intro h; simp [oddEmits] at h
  | cons o rest ih =>
    intro h
    rcases List.mem_append.mp h with h1 | h1
    · exact ⟨o, List.mem_cons_self o rest, h1⟩
    · rcases ih h1 with ⟨o2, ho2, hm⟩
      exact ⟨o2, List.mem_cons_of_mem o ho2, hm⟩

theorem evenEmits_all_mid (amt : TradeKey → Nat) (i : Nat) (ts te : Int)
    (tr : TradeKey → Trend) :
    ∀ l : List ParentOrder, (∀ o ∈ l, tr (tradeKey o) = Trend.mid) →
      evenEmits amt i ts te tr l = l.map (fun o => mkChild o (amt (tradeKey o)) ts te) := by
  intro l
  induction l with
  | nil => intro _; rfl
  | cons o rest ih =>
    intro h
    rw [evenEmits, h o (List.mem_cons_self o rest), sbbOrderEmission_mid,
      ih (fun o2 h2 => h o2 (List.mem_cons_of_mem o h2))]
    rfl

theorem oddEmits_all_mid (pred : StockId → Option Int → Option Int → Trend)
    (amt : TradeKey → Nat) (i : Nat) (ts te : Int)
    (hpred : ∀ sid, pred sid none none = Trend.mid) :
    ∀ l : List ParentOrder,
      oddEmits pred amt i ts te l = l.map (fun o => mkChild o (amt (tradeKey o)) ts te) := by
  intro l
  induction l with
  | nil => rfl
  | cons o rest ih =>
    rw [oddEmits, hpred o.stock_id, sbbOrderEmission_mid, ih]
    rfl

theorem dateAt_ok_lt (trade_dates : List Int) (i : Nat) (t : Int)
    (h : dateAt trade_dates i = Except.ok t) : i < trade_dates.length := by
  unfold dateAt at h
  rcases hg : trade_dates[i]? with _ | t2
  · rw [hg] at h; exact absurd h (by simp)
  · exact (List.getElem?_eq_some.mp hg).1

theorem sbbComputedPredWindow_ok (trade_dates : List Int) (i : Nat) (ts : Int)
    (h : i < trade_dates.length) :
    ∃ w, sbbComputedPredWindow trade_dates i ts = Except.ok w := by
  unfold sbbComputedPredWindow
  by_cases h1 : i = 1
  · exact ⟨(none, ts - 1), by rw [if_pos h1]⟩
  · have h2 : i - 2 < trade_dates.length := lt_of_le_of_lt (Nat.sub_le i 2) h
    refine ⟨(some trade_dates[i - 2], ts - 1), ?_⟩
    rw [if_neg h1]
    simp only [dateAt, List.getElem?_eq_getElem h2]
    rfl

theorem matchKey_mkChild (k : TradeKey) (o : ParentOrder) (a : Nat) (ts te : Int) :
    matchKey k (mkChild o a ts te) = decide (tradeKey o = k) := by
  by_cases h1 : o.stock_id = k.1 <;> by_cases h2 : o.direction = k.2 <;>
    simp [matchKey, mkChild, tradeKey, Prod.ext_iff, h1, h2]

theorem mkTradeAmount_no_write (trade_len : Nat) (k : TradeKey) :
    ∀ (l : List ParentOrder) (m : TradeKey → Nat), (∀ o ∈ l, tradeKey o ≠ k) →
      (l.foldl (fun m2 o k1 => if k1 = tradeKey o then o.amount / trade_len else m2 k1) m) k
        = m k := by
  intro l
  induction l with
  | nil => intro m _; rfl
  | cons o rest ih =>
    intro m h
    have hk : tradeKey o ≠ k := h o (List.mem_cons_self o rest)
    rw [List.foldl_cons, ih _ (fun o2 h2 => h o2 (List.mem_cons_of_mem o h2))]
    exact if_neg (Ne.symm hk)

theorem mkTradeAmount_unique_aux (trade_len : Nat) (k : TradeKey) (o : ParentOrder)
    (hk : tradeKey o = k) :
    ∀ (l : List ParentOrder) (m : TradeKey → Nat), o ∈ l → countKey l k = 1 →
      (l.foldl (fun m2 o2 k1 => if k1 = tradeKey o2 then o2.amount / trade_len else m2 k1) m) k
        = o.amount / trade_len := by
  intro l
  induction l with
  | nil => intro m hmem _; exact absurd hmem (by simp)
  | cons h t ih =>
    intro m hmem hcount
    rw [countKey, List.countP_cons] at hcount
    by_cases hhk : tradeKey h = k
    · rw [if_pos (show decide (tradeKey h = k) = true by simpa using hhk)] at hcount
      have ht0 : t.countP (fun o2 => decide (tradeKey o2 = k)) = 0 := by omega
      have hnone : ∀ o2 ∈ t, tradeKey o2 ≠ k := by
        intro o2 h2
        have := List.countP_eq_zero.mp ht0 o2 h2
        simpa using this
      have hoh : o = h := by
        rcases List.mem_cons.mp hmem with h0 | h0
        · exact h0
        · exact absurd hk (hnone o h0)
      rw [List.foldl_cons, mkTradeAmount_no_write trade_len k t _ hnone, if_pos hhk.symm, hoh]
    · rw [if_neg (show ¬decide (tradeKey h = k) = true by simpa using hhk),
        Nat.add_zero] at hcount
      have hot : o ∈ t := by
        rcases List.mem_cons.mp hmem with h0 | h0
        · exact absurd (h0 ▸ hk) hhk
        · exact h0
      rw [List.foldl_cons]
      exact ih _ hot hcount

theorem mkTradeAmount_unique (trade_len : Nat) (ol : List ParentOrder) (o : ParentOrder)
    (k : TradeKey) (hk : tradeKey o = k) (ho : o ∈ ol) (hcount : countKey ol k = 1) :
    mkTradeAmount trade_len ol k = o.amount / trade_len :=
  mkTradeAmount_unique_aux trade_len k o hk ol _ ho hcount

theorem filter_map_child_no_key (amt : TradeKey → Nat) (ts te : Int) (k : TradeKey) :
    ∀ l : List ParentOrder, (∀ o ∈ l, tradeKey o ≠ k) →
      ((l.map fun o => mkChild o (amt (tradeKey o)) ts te).filter (matchKey k)) = [] := by
  intro l
  induction l with
  | nil => intro _; rfl
  | cons o rest ih =>
    intro h
    have hk : tradeKey o ≠ k := h o (List.mem_cons_self o rest)
    rw [List.map_cons, List.filter_cons_of_neg, ih (fun o2 h2 => h o2 (List.mem_cons_of_mem o h2))]
    rw [matchKey_mkChild]
    simpa using hk

theorem filter_map_child_unique (amt : TradeKey → Nat) (ts te : Int) (k : TradeKey)
    (o : ParentOrder) (hk : tradeKey o = k) :
    ∀ l : List ParentOrder, o ∈ l → countKey l k = 1 →
      ((l.map fun o2 => mkChild o2 (amt (tradeKey o2)) ts te).filter (matchKey k))
        = [mkChild o (amt (tradeKey o)) ts te] := by
  intro l
  induction l with
  | nil => intro hmem _; exact absurd hmem (by simp)
  | cons h t ih =>
    intro hmem hcount
    rw [countKey, List.countP_cons] at hcount
    by_cases hhk : tradeKey h = k
    · rw [if_pos (show decide (tradeKey h = k) = true by simpa using hhk)] at hcount
      have ht0 : t.countP (fun o2 => decide (tradeKey o2 = k)) = 0 := by omega
      have hnone : ∀ o2 ∈ t, tradeKey o2 ≠ k := by
        intro o2 h2
        have := List.countP_eq_zero.mp ht0 o2 h2
        simpa using this
      have hoh : o = h := by
        rcases List.mem_cons.mp hmem with h0 | h0
        · exact h0
        · exact absurd hk (hnone o h0)
      rw [List.map_cons, List.filter_cons_of_pos, filter_map_child_no_key amt ts te k t hnone]
      · rw [hoh]
      · rw [matchKey_mkChild]; simpa using hhk
    · rw [if_neg (show ¬decide (tradeKey h = k) = true by simpa using hhk),
        Nat.add_zero] at hcount
      have hot : o ∈ t := by
        rcases List.mem_cons.mp hmem with h0 | h0
        · exact absurd (h0 ▸ hk) hhk
        · exact h0
      rw [List.map_cons, List.filter_cons_of_neg, ih hot hcount]
      rw [matchKey_mkChild]
      simpa using hhk

theorem twapGenerateOrderList_ok (ol : List ParentOrder) (amt : TradeKey → Nat)
    (trade_dates : List Int) (i : Nat) (ts te : Int)
    (h1 : trade_dates[i - 1]? = some ts) (h2 : trade_dates[i]? = some te) :
    twapGenerateOrderList ol amt trade_dates i =
      Except.ok (ol.map fun o => mkChild o (amt (tradeKey o)) ts te) := by
  simp only [twapGenerateOrderList, dateAt, h1, h2]
  rfl

theorem twapEmittedForKey_eq (trade_len : Nat) (ol : List ParentOrder)
    (trade_dates : List Int) (o : ParentOrder) (k : TradeKey) (amt : TradeKey → Nat)
    (i : Nat) (hdates : trade_dates.length = trade_len + 1)
    (hk : tradeKey o = k) (ho : o ∈ ol) (hcount : countKey ol k = 1)
    (hi1 : 1 ≤ i) (hi2 : i ≤ trade_len) :
    twapEmittedForKey ol amt trade_dates i k = amt k := by
  have hia : i - 1 < trade_dates.length := by omega
  have hib : i < trade_dates.length := by omega
  have hgen := twapGenerateOrderList_ok ol amt trade_dates i _ _
    (List.getElem?_eq_getElem hia) (List.getElem?_eq_getElem hib)
  simp only [twapEmittedForKey, hgen, amountForKey,
    filter_map_child_unique amt _ _ k o hk ol ho hcount]
  simp [mkChild, hk]

/-- C1: for a parent order of amount `A` worked over `N` steps, registration
precomputes `base_amount = A / N` (floor division); each of the `N` calls emits
exactly one child order for the key, with amount `base_amount`; the total emitted
over the run is `N * (A / N) ≤ A` and the truncation remainder `A - N * (A / N)`
is `< N` (never redistributed). -/
theorem C1_twap_conservation (trade_len : Nat) (ol : List ParentOrder)
    (trade_dates : List Int) (o : ParentOrder) (k : TradeKey)
    (hN : 0 < trade_len) (hdates : trade_dates.length = trade_len + 1)
    (ho : o ∈ ol) (hk : tradeKey o = k) (hcount : countKey ol k = 1) :
    mkTradeAmount trade_len ol k = o.amount / trade_len ∧
    (∀ i, 1 ≤ i → i ≤ trade_len → ∃ l,
      twapGenerateOrderList ol (mkTradeAmount trade_len ol) trade_dates i = Except.ok l ∧
      (l.filter (matchKey k)).length = 1 ∧
      ∀ ord ∈ l, matchKey k ord = true → ord.amount = o.amount / trade_len) ∧
    Finset.sum (Finset.Icc 1 trade_len)
        (fun i => twapEmittedForKey ol (mkTradeAmount trade_len ol) trade_dates i k)
      = trade_len * (o.amount / trade_len) ∧
    trade_len * (o.amount / trade_len) ≤ o.amount ∧
    o.amount - trade_len * (o.amount / trade_len) < trade_len := by
  have hamt : mkTradeAmount trade_len ol k = o.amount / trade_len :=
    mkTradeAmount_unique trade_len ol o k hk ho hcount
  have hdm := Nat.div_add_mod o.amount trade_len
  have hmod : o.amount % trade_len < trade_len := Nat.mod_lt _ hN
  refine ⟨hamt, ?_, ?_, ?_, ?_⟩
  · intro i hi1 hi2
    have hia : i - 1 < trade_dates.length := by omega
    have hib : i < trade_dates.length := by omega
    refine ⟨_, twapGenerateOrderList_ok ol (mkTradeAmount trade_len ol) trade_dates i _ _
      (List.getElem?_eq_getElem hia) (List.getElem?_eq_getElem hib), ?_, ?_⟩
    · rw [filter_map_child_unique (mkTradeAmount trade_len ol) _ _ k o hk ol ho hcount]
      rfl
    · intro ord hord hmatch
      have hmem : ord ∈ (ol.map fun o2 =>
          mkChild o2 (mkTradeAmount trade_len ol (tradeKey o2)) trade_dates[i - 1]
            trade_dates[i]).filter (matchKey k) :=
        List.mem_filter.mpr ⟨hord, hmatch⟩
      rw [filter_map_child_unique (mkTradeAmount trade_len ol) _ _ k o hk ol ho hcount,
        List.mem_singleton] at hmem
      rw [hmem]
      simp only [mkChild, hk, hamt]
  · have hterm : ∀ i ∈ Finset.Icc 1 trade_len,
        twapEmittedForKey ol (mkTradeAmount trade_len ol) trade_dates i k
          = o.amount / trade_len := by
      intro i hi
      rw [Finset.mem_Icc] at hi
      rw [twapEmittedForKey_eq trade_len ol trade_dates o k _ i hdates hk ho hcount
        hi.1 hi.2, hamt]
    rw [Finset.sum_congr rfl hterm, Finset.sum_const, Nat.card_Icc, smul_eq_mul,
      Nat.add_sub_cancel]
  · exact le_of_le_of_eq (Nat.le_add_right _ _) hdm
  · have h5 : o.amount - trade_len * (o.amount / trade_len) = o.amount % trade_len :=
      Nat.sub_eq_of_eq_add (Nat.mod_add_div o.amount trade_len).symm
    rw [h5]
    exact hmod

/-- Witness for C1: the example of the spec (`total_amount = 100`, `N = 3`,
base amount `33`, remainder `1`). -/
theorem C1_twap_conservation_witness :
    (0 < 3 ∧ wDates.length = 3 + 1 ∧ wOrder ∈ [wOrder] ∧ tradeKey wOrder = wKey ∧
      countKey [wOrder] wKey = 1) ∧
    (mkTradeAmount 3 [wOrder] wKey = wOrder.amount / 3 ∧
    (∀ i, 1 ≤ i → i ≤ 3 → ∃ l,
      twapGenerateOrderList [wOrder] (mkTradeAmount 3 [wOrder]) wDates i = Except.ok l ∧
      (l.filter (matchKey wKey)).length = 1 ∧
      ∀ ord ∈ l, matchKey wKey ord = true → ord.amount = wOrder.amount / 3) ∧
    Finset.sum (Finset.Icc 1 3)
        (fun i => twapEmittedForKey [wOrder] (mkTradeAmount 3 [wOrder]) wDates i wKey)
      = 3 * (wOrder.amount / 3) ∧
    3 * (wOrder.amount / 3) ≤ wOrder.amount ∧
    wOrder.amount - 3 * (wOrder.amount / 3) < 3) :=
  ⟨⟨by decide, by decide, by decide, by decide, by decide⟩,
    C1_twap_conservation 3 [wOrder] wDates wOrder wKey (by decide) (by decide)
      (by decide) (by decide) (by decide)⟩

theorem sbbGenerateOrderList_ok_inv (pred : StockId → Option Int → Option Int → Trend)
    (ol : List ParentOrder) (amt : TradeKey → Nat) (tr : TradeKey → Trend)
    (trade_dates : List Int) (i : Nat) (ts te : Int) (l : List Order)
    (tr2 : TradeKey → Trend)
    (hgen : sbbGenerateOrderList pred ol amt tr trade_dates i ts te = Except.ok (l, tr2)) :
    sbbLoop pred amt i ts te ol ([], tr) = (l, tr2) := by
  unfold sbbGenerateOrderList at hgen
  rcases hw : sbbComputedPredWindow trade_dates i ts with e | w <;> rw [hw] at hgen
  · exact absurd (show (Except.error e : Except StrategyError (List Order × (TradeKey → Trend)))
      = Except.ok (l, tr2) from hgen) (by simp)
  · exact Except.ok.inj hgen

/-- C2: the SBB per-key decision table.  With `t` the effective trend (the
predictor's answer on an odd step, the stored trend on an even step): `MID`
emits the base amount for either direction in either phase; in the odd phase
LONG doubles a BUY key and skips a SELL key, SHORT doubles a SELL key and skips
a BUY key; in the even phase with the same stored trend the favorability is
inverted (LONG doubles SELL and skips BUY, SHORT doubles BUY and skips SELL). -/
theorem C2_sbb_decision_table (pred : StockId → Option Int → Option Int → Trend)
    (amt : TradeKey → Nat) (tr : TradeKey → Trend) (trade_dates : List Int)
    (i : Nat) (ts te : Int) (o : ParentOrder) (l : List Order)
    (tr2 : TradeKey → Trend) (t : Trend)
    (hgen : sbbGenerateOrderList pred [o] amt tr trade_dates i ts te = Except.ok (l, tr2))
    (ht : t = if i % 2 = 1 then pred o.stock_id none none else tr (tradeKey o)) :
    (t = Trend.mid → l = [mkChild o (amt (tradeKey o)) ts te]) ∧
    (i % 2 = 1 → (t = Trend.long ∧ o.direction = Direction.buy) ∨
        (t = Trend.short ∧ o.direction = Direction.sell) →
      l = [mkChild o (2 * amt (tradeKey o)) ts te]) ∧
    (i % 2 = 1 → (t = Trend.long ∧ o.direction = Direction.sell) ∨
        (t = Trend.short ∧ o.direction = Direction.buy) → l = []) ∧
    (i % 2 ≠ 1 → (t = Trend.long ∧ o.direction = Direction.sell) ∨
        (t = Trend.short ∧ o.direction = Direction.buy) →
      l = [mkChild o (2 * amt (tradeKey o)) ts te]) ∧
    (i % 2 ≠ 1 → (t = Trend.long ∧ o.direction = Direction.buy) ∨
        (t = Trend.short ∧ o.direction = Direction.sell) → l = []) := by
  have hloop := sbbGenerateOrderList_ok_inv pred [o] amt tr trade_dates i ts te l tr2 hgen
  have hl : l = sbbOrderEmission i t o (amt (tradeKey o)) ts te := by
    by_cases hodd : i % 2 = 1
    · rw [sbbLoop_odd_eq pred amt i ts te hodd] at hloop
      have h1 := congrArg Prod.fst hloop
      simp only [oddEmits, List.nil_append, List.append_nil] at h1
      rw [← h1, ht, if_pos hodd]
    · rw [sbbLoop_even_eq pred amt i ts te hodd] at hloop
      have h1 := congrArg Prod.fst hloop
      simp only [evenEmits, List.nil_append, List.append_nil] at h1
      rw [← h1, ht, if_neg hodd]
  subst hl
  refine ⟨?_, ?_, ?_, ?_, ?_⟩
  · intro hmid
    rw [hmid, sbbOrderEmission_mid]
  · intro hodd hcase
    rcases hcase with ⟨ht1, hd⟩ | ⟨ht1, hd⟩ <;> simp [sbbOrderEmission, hodd, ht1, hd]
  · intro hodd hcase
    rcases hcase with ⟨ht1, hd⟩ | ⟨ht1, hd⟩ <;> simp [sbbOrderEmission, hodd, ht1, hd]
  · intro heven hcase
    rcases hcase with ⟨ht1, hd⟩ | ⟨ht1, hd⟩ <;> simp [sbbOrderEmission, heven, ht1, hd]
  · intro heven hcase
    rcases hcase with ⟨ht1, hd⟩ | ⟨ht1, hd⟩ <;> simp [sbbOrderEmission, heven, ht1, hd]

/-- Witness for C2: odd step 1, predictor LONG, BUY key doubles (100/3 = 33 → 66). -/
theorem C2_sbb_decision_table_witness :
    (sbbGenerateOrderList wPredLong [wOrder] wAmt wTrMid wDates 1 0 10 =
        Except.ok (wC2List, wC2Trend) ∧
      Trend.long = (if 1 % 2 = 1 then wPredLong wOrder.stock_id none none
        else wTrMid (tradeKey wOrder))) ∧
    ((Trend.long = Trend.mid → wC2List = [mkChild wOrder (wAmt (tradeKey wOrder)) 0 10]) ∧
    (1 % 2 = 1 → (Trend.long = Trend.long ∧ wOrder.direction = Direction.buy) ∨
        (Trend.long = Trend.short ∧ wOrder.direction = Direction.sell) →
      wC2List = [mkChild wOrder (2 * wAmt (tradeKey wOrder)) 0 10]) ∧
    (1 % 2 = 1 → (Trend.long = Trend.long ∧ wOrder.direction = Direction.sell) ∨
        (Trend.long = Trend.short ∧ wOrder.direction = Direction.buy) → wC2List = []) ∧
    (1 % 2 ≠ 1 → (Trend.long = Trend.long ∧ wOrder.direction = Direction.sell) ∨
        (Trend.long = Trend.short ∧ wOrder.direction = Direction.buy) →
      wC2List = [mkChild wOrder (2 * wAmt (tradeKey wOrder)) 0 10]) ∧
    (1 % 2 ≠ 1 → (Trend.long = Trend.long ∧ wOrder.direction = Direction.buy) ∨
        (Trend.long = Trend.short ∧ wOrder.direction = Direction.sell) → wC2List = [])) :=
  ⟨⟨rfl, rfl⟩, C2_sbb_decision_table wPredLong wAmt wTrMid wDates 1 0 10 wOrder wC2List
    wC2Trend Trend.long rfl rfl⟩

/-- C3 evaluation: on step 3 the loop computes the prediction window
`(trade_dates[1], trade_start_time - 1) = (some 10, 19)`, yet the emitted orders
are governed by the predictor's answer at `(none, none)`: a predictor answering
LONG at `(none, none)` and MID on the computed window still produces the doubled
LONG/BUY order, not the MID base order. -/
theorem C3_window_not_passed :
    sbbComputedPredWindow wDates 3 20 = Except.ok (some 10, 19) ∧
    wPredSensitive "AAPL" (some 10) (some 19) = Trend.mid ∧
    wPredSensitive "AAPL" none none = Trend.long ∧
    sbbGenerateOrderList wPredSensitive [wOrder] wAmt wTrMid wDates 3 20 30 =
      Except.ok ([mkChild wOrder (2 * wAmt (tradeKey wOrder)) 20 30],
        trendInsert wTrMid (tradeKey wOrder) Trend.long) :=
  ⟨rfl, rfl, rfl, rfl⟩

theorem sbbGenerateOrderList_eq_of_window (pred : StockId → Option Int → Option Int → Trend)
    (ol : List ParentOrder) (amt : TradeKey → Nat) (tr : TradeKey → Trend)
    (trade_dates : List Int) (i : Nat) (ts te : Int) (w : Option Int × Int)
    (hw : sbbComputedPredWindow trade_dates i ts = Except.ok w) :
    sbbGenerateOrderList pred ol amt tr trade_dates i ts te
      = Except.ok (sbbLoop pred amt i ts te ol ([], tr)) := by
  unfold sbbGenerateOrderList
  rw [hw]
  rfl

/-- C4: MID passthrough.  If the predictor answers MID on every call and the
stored trend of every registered key is MID (as established at registration and
preserved by every step under this predictor — second conjunct), then the child
orders produced by the SBB step are exactly the TWAP step's output. -/
theorem C4_sbb_mid_passthrough (pred : StockId → Option Int → Option Int → Trend)
    (ol : List ParentOrder) (amt : TradeKey → Nat) (tr : TradeKey → Trend)
    (trade_dates : List Int) (i : Nat) (ts te : Int)
    (hpred : ∀ sid ps pe, pred sid ps pe = Trend.mid)
    (htr : ∀ o ∈ ol, tr (tradeKey o) = Trend.mid)
    (h1 : trade_dates[i - 1]? = some ts) (h2 : trade_dates[i]? = some te) :
    Except.map Prod.fst (sbbGenerateOrderList pred ol amt tr trade_dates i ts te)
      = twapGenerateOrderList ol amt trade_dates i ∧
    (∀ l tr2, sbbGenerateOrderList pred ol amt tr trade_dates i ts te = Except.ok (l, tr2) →
      ∀ o ∈ ol, tr2 (tradeKey o) = Trend.mid) := by
  have hib : i < trade_dates.length := (List.getElem?_eq_some.mp h2).1
  obtain ⟨w, hw⟩ := sbbComputedPredWindow_ok trade_dates i ts hib
  have hgen := sbbGenerateOrderList_eq_of_window pred ol amt tr trade_dates i ts te w hw
  have htwap := twapGenerateOrderList_ok ol amt trade_dates i ts te h1 h2
  have hlist : (sbbLoop pred amt i ts te ol ([], tr)).1
      = ol.map fun o => mkChild o (amt (tradeKey o)) ts te := by
    by_cases hodd : i % 2 = 1
    · rw [sbbLoop_odd_eq pred amt i ts te hodd]
      simp [oddEmits_all_mid pred amt i ts te (fun sid => hpred sid none none) ol]
    · rw [sbbLoop_even_eq pred amt i ts te hodd]
      simp [evenEmits_all_mid amt i ts te tr ol htr]
  constructor
  · rw [hgen, htwap, Except.map, hlist]
  · intro l tr2 hok o ho
    have hloop : sbbLoop pred amt i ts te ol ([], tr) = (l, tr2) := by
      rw [hgen] at hok
      exact Except.ok.inj hok
    by_cases hodd : i % 2 = 1
    · rw [sbbLoop_odd_eq pred amt i ts te hodd] at hloop
      have h3 : oddTrendFold pred ol tr = tr2 := congrArg Prod.snd hloop
      rw [← h3]
      have := oddTrendFold_mem pred (tradeKey o) ol tr ⟨o, ho, rfl⟩
      rw [this, hpred]
    · rw [sbbLoop_even_eq pred amt i ts te hodd] at hloop
      have h3 : tr = tr2 := congrArg Prod.snd hloop
      rw [← h3]
      exact htr o ho

/-- Witness for C4: two parent orders (BUY 100, SELL 90) at step 1 of the
example calendar; the SBB output coincides with TWAP's. -/
theorem C4_sbb_mid_passthrough_witness :
    ((∀ sid ps pe, wPredMid sid ps pe = Trend.mid) ∧
      (∀ o ∈ [wOrder, wOrderSell], wTrMid (tradeKey o) = Trend.mid) ∧
      wDates[1 - 1]? = some 0 ∧ wDates[1]? = some 10) ∧
    (Except.map Prod.fst (sbbGenerateOrderList wPredMid [wOrder, wOrderSell]
        (mkTradeAmount 3 [wOrder, wOrderSell]) wTrMid wDates 1 0 10)
      = twapGenerateOrderList [wOrder, wOrderSell]
        (mkTradeAmount 3 [wOrder, wOrderSell]) wDates 1 ∧
    (∀ l tr2, sbbGenerateOrderList wPredMid [wOrder, wOrderSell]
        (mkTradeAmount 3 [wOrder, wOrderSell]) wTrMid wDates 1 0 10 = Except.ok (l, tr2) →
      ∀ o ∈ [wOrder, wOrderSell], tr2 (tradeKey o) = Trend.mid)) :=
  ⟨⟨fun _ _ _ => rfl, fun _ _ => rfl, rfl, rfl⟩,
    C4_sbb_mid_passthrough wPredMid [wOrder, wOrderSell]
      (mkTradeAmount 3 [wOrder, wOrderSell]) wTrMid wDates 1 0 10
      (fun _ _ _ => rfl) (fun _ _ => rfl) rfl rfl⟩

/-- C5: on an odd step the loop overwrites `trade_trend` with the predictor's
answer for every registered key and touches no other key; feeding the stored map
to the immediately following even step, that step's output is independent of the
predictor (it is never called), leaves the trend map unchanged, and its per-key
emission is driven exactly by the value the odd step stored. -/
theorem C5_trend_write_discipline (pred : StockId → Option Int → Option Int → Trend)
    (ol : List ParentOrder) (amt : TradeKey → Nat) (tr : TradeKey → Trend)
    (trade_dates : List Int) (i : Nat) (ts te ts2 te2 : Int) (hodd : i % 2 = 1) :
    ∀ l tr2, sbbGenerateOrderList pred ol amt tr trade_dates i ts te = Except.ok (l, tr2) →
      ((∀ o ∈ ol, tr2 (tradeKey o) = pred o.stock_id none none) ∧
      (∀ k, (∀ o ∈ ol, tradeKey o ≠ k) → tr2 k = tr k) ∧
      (∀ pred2, sbbGenerateOrderList pred ol amt tr2 trade_dates (i + 1) ts2 te2
        = sbbGenerateOrderList pred2 ol amt tr2 trade_dates (i + 1) ts2 te2) ∧
      (∀ l2 tr3, sbbGenerateOrderList pred ol amt tr2 trade_dates (i + 1) ts2 te2
        = Except.ok (l2, tr3) → tr3 = tr2) ∧
      (∀ o l2 tr3, ol = [o] →
        sbbGenerateOrderList pred ol amt tr2 trade_dates (i + 1) ts2 te2
          = Except.ok (l2, tr3) →
        l2 = sbbOrderEmission (i + 1) (tr2 (tradeKey o)) o (amt (tradeKey o)) ts2 te2)) := by
  intro l tr2 hgen
  have heven : (i + 1) % 2 ≠ 1 := by omega
  have hloop := sbbGenerateOrderList_ok_inv pred ol amt tr trade_dates i ts te l tr2 hgen
  rw [sbbLoop_odd_eq pred amt i ts te hodd] at hloop
  have htr2 : oddTrendFold pred ol tr = tr2 := congrArg Prod.snd hloop
  refine ⟨?_, ?_, ?_, ?_, ?_⟩
  · intro o ho
    rw [← htr2, oddTrendFold_mem pred (tradeKey o) ol tr ⟨o, ho, rfl⟩]
    rfl
  · intro k hk
    rw [← htr2, oddTrendFold_not_mem pred k ol tr hk]
  · intro pred2
    unfold sbbGenerateOrderList
    rcases hw : sbbComputedPredWindow trade_dates (i + 1) ts2 with e | w
    · rfl
    · rw [sbbLoop_even_eq pred amt (i + 1) ts2 te2 heven,
        sbbLoop_even_eq pred2 amt (i + 1) ts2 te2 heven]
  · intro l2 tr3 hgen2
    have hloop2 := sbbGenerateOrderList_ok_inv pred ol amt tr2 trade_dates (i + 1) ts2 te2
      l2 tr3 hgen2
    rw [sbbLoop_even_eq pred amt (i + 1) ts2 te2 heven] at hloop2
    exact (show tr2 = tr3 from congrArg Prod.snd hloop2).symm
  · intro o l2 tr3 hol hgen2
    subst hol
    have hloop2 := sbbGenerateOrderList_ok_inv pred [o] amt tr2 trade_dates (i + 1) ts2 te2
      l2 tr3 hgen2
    rw [sbbLoop_even_eq pred amt (i + 1) ts2 te2 heven] at hloop2
    have h1 : [] ++ evenEmits amt (i + 1) ts2 te2 tr2 [o] = l2 := congrArg Prod.fst hloop2
    rw [← h1]
    simp [evenEmits]

/-- Witness for C5: odd step 1 with a LONG predictor, then even step 2 fed the
stored map. -/
theorem C5_trend_write_discipline_witness :
    (1 % 2 = 1 ∧ sbbGenerateOrderList wPredLong [wOrder] wAmt wTrMid wDates 1 0 10
        = Except.ok (wC2List, wC2Trend)) ∧
    ((∀ o ∈ [wOrder], wC2Trend (tradeKey o) = wPredLong o.stock_id none none) ∧
    (∀ k, (∀ o ∈ [wOrder], tradeKey o ≠ k) → wC2Trend k = wTrMid k) ∧
    (∀ pred2, sbbGenerateOrderList wPredLong [wOrder] wAmt wC2Trend wDates (1 + 1) 10 20
      = sbbGenerateOrderList pred2 [wOrder] wAmt wC2Trend wDates (1 + 1) 10 20) ∧
    (∀ l2 tr3, sbbGenerateOrderList wPredLong [wOrder] wAmt wC2Trend wDates (1 + 1) 10 20
      = Except.ok (l2, tr3) → tr3 = wC2Trend) ∧
    (∀ o l2 tr3, [wOrder] = [o] →
      sbbGenerateOrderList wPredLong [wOrder] wAmt wC2Trend wDates (1 + 1) 10 20
        = Except.ok (l2, tr3) →
      l2 = sbbOrderEmission (1 + 1) (wC2Trend (tradeKey o)) o (wAmt (tradeKey o)) 10 20)) :=
  ⟨⟨rfl, rfl⟩, C5_trend_write_discipline wPredLong [wOrder] wAmt wTrMid wDates 1 0 10 10 20
    rfl wC2List wC2Trend rfl⟩

theorem hasDuplicateKey_append (pre mids post : List ParentOrder) (o1 o2 : ParentOrder)
    (hkey : tradeKey o1 = tradeKey o2) :
    hasDuplicateKey (pre ++ o1 :: (mids ++ o2 :: post)) = true := by
  induction pre with
  | nil =>
    simp only [List.nil_append, hasDuplicateKey, List.any_append, List.any_cons]
    have hd : decide (tradeKey o2 = tradeKey o1) = true := by simp [hkey]
    simp [hd]
  | cons h t ih =>
    simp only [List.cons_append, hasDuplicateKey, List.append_eq, ih, Bool.or_true]

/-- C6: if the registered parent-order list contains two parent orders with the
same `(stock_id, direction)` key, initialization of either strategy fails with
`DuplicateKey` and produces no strategy state. -/
theorem C6_duplicate_key (trade_len : Nat) (pre mids post : List ParentOrder)
    (o1 o2 : ParentOrder) (hkey : tradeKey o1 = tradeKey o2) :
    twapInit trade_len (pre ++ o1 :: (mids ++ o2 :: post))
        = Except.error StrategyError.duplicateKey ∧
    sbbInit trade_len (pre ++ o1 :: (mids ++ o2 :: post))
        = Except.error StrategyError.duplicateKey := by
  have hd := hasDuplicateKey_append pre mids post o1 o2 hkey
  have hres : tradingEnhancementReset (pre ++ o1 :: (mids ++ o2 :: post))
      = Except.error StrategyError.duplicateKey := by
    unfold tradingEnhancementReset
    rw [hd]
    rfl
  constructor
  · unfold twapInit
    rw [hres]
    rfl
  · unfold sbbInit
    rw [hres]
    rfl

/-- Witness for C6: two BUY parent orders for the same security. -/
theorem C6_duplicate_key_witness :
    tradeKey wOrder = tradeKey wOrderDup ∧
    (twapInit 3 ([] ++ wOrder :: ([] ++ wOrderDup :: []))
        = Except.error StrategyError.duplicateKey ∧
    sbbInit 3 ([] ++ wOrder :: ([] ++ wOrderDup :: []))
        = Except.error StrategyError.duplicateKey) :=
  ⟨rfl, C6_duplicate_key 3 [] [] [] wOrder wOrderDup rfl⟩

/-- C7: calling `generate_order_list` at a step index beyond the calendar's last
step fails (via the out-of-range calendar index at lines 31-32, the spec's
`StepOutOfRange`) and returns no child orders. -/
theorem C7_step_out_of_range (ol : List ParentOrder) (amt : TradeKey → Nat)
    (trade_dates : List Int) (trade_len i : Nat)
    (hdates : trade_dates.length = trade_len + 1) (hi : trade_len < i) :
    twapGenerateOrderList ol amt trade_dates i = Except.error StrategyError.stepOutOfRange := by
  have h2 : trade_dates[i]? = none := List.getElem?_eq_none (by omega)
  unfold twapGenerateOrderList
  rcases h1 : dateAt trade_dates (i - 1) with e | ts
  · have he : e = StrategyError.stepOutOfRange := by
      unfold dateAt at h1
      rcases hg : trade_dates[i - 1]? with _ | t2 <;> rw [hg] at h1
      · exact (Except.error.inj h1).symm
      · exact absurd h1 (by simp)
    rw [he]
    rfl
  · have hd2 : dateAt trade_dates i = Except.error StrategyError.stepOutOfRange := by
      unfold dateAt
      rw [h2]
    rw [hd2]
    rfl

/-- Witness for C7: step 4 on the 3-step example calendar. -/
theorem C7_step_out_of_range_witness :
    (wDates.length = 3 + 1 ∧ 3 < 4) ∧
    twapGenerateOrderList [wOrder] wAmt wDates 4 = Except.error StrategyError.stepOutOfRange :=
  ⟨⟨by decide, by decide⟩,
    C7_step_out_of_range [wOrder] wAmt wDates 3 4 (by decide) (by decide)⟩

/-- C8: an empty sampled signal (no data for the window) yields the MID
classification; the function is total, so no error is raised. -/
theorem C8_empty_signal_mid (signal : StockId → Option Int → Option Int → Option ℚ)
    (stock_id : StockId) (ps pe : Option Int) (h : signal stock_id ps pe = none) :
    sbbemaPredPriceTrend signal stock_id ps pe = Trend.mid := by
  simp [sbbemaPredPriceTrend, h]

/-- Witness for C8: the all-empty signal. -/
theorem C8_empty_signal_mid_witness :
    (fun (_ : StockId) (_ _ : Option Int) => (none : Option ℚ)) "AAPL" none none = none ∧
    sbbemaPredPriceTrend (fun _ _ _ => none) "AAPL" none none = Trend.mid :=
  ⟨rfl, C8_empty_signal_mid (fun _ _ _ => none) "AAPL" none none rfl⟩

/-- C9: for a non-empty sample the classification is LONG exactly when the
sampled value is strictly positive; every other value — including exactly
zero — is classified SHORT. -/
theorem C9_zero_signal_short (signal : StockId → Option Int → Option Int → Option ℚ)
    (stock_id : StockId) (ps pe : Option Int) (x : ℚ)
    (h : signal stock_id ps pe = some x) :
    (sbbemaPredPriceTrend signal stock_id ps pe = Trend.long ↔ 0 < x) ∧
    (x ≤ 0 → sbbemaPredPriceTrend signal stock_id ps pe = Trend.short) := by
  simp only [sbbemaPredPriceTrend, h]
  constructor
  · by_cases hx : 0 < x <;> simp [hx]
  · intro hx
    rw [if_neg (not_lt.mpr hx)]

/-- Witness for C9: the constant-zero signal is classified SHORT. -/
theorem C9_zero_signal_short_witness :
    (fun (_ : StockId) (_ _ : Option Int) => (some (0 : ℚ))) "AAPL" none none = some 0 ∧
    ((sbbemaPredPriceTrend (fun _ _ _ => some 0) "AAPL" none none = Trend.long ↔ (0 : ℚ) < 0) ∧
    ((0 : ℚ) ≤ 0 → sbbemaPredPriceTrend (fun _ _ _ => some 0) "AAPL" none none = Trend.short)) :=
  ⟨rfl, C9_zero_signal_short (fun _ _ _ => some 0) "AAPL" none none 0 rfl⟩

theorem dateAt_ok_some (trade_dates : List Int) (i : Nat) (t : Int)
    (h : dateAt trade_dates i = Except.ok t) : trade_dates[i]? = some t := by
  unfold dateAt at h
  rcases hg : trade_dates[i]? with _ | t2 <;> rw [hg] at h
  · exact absurd h (by simp)
  · rw [Except.ok.inj h]

theorem twapGenerateOrderList_ok_inv (ol : List ParentOrder) (amt : TradeKey → Nat)
    (trade_dates : List Int) (i : Nat) (l : List Order)
    (hgen : twapGenerateOrderList ol amt trade_dates i = Except.ok l) :
    ∃ ts te, trade_dates[i - 1]? = some ts ∧ trade_dates[i]? = some te ∧
      l = ol.map fun o => mkChild o (amt (tradeKey o)) ts te := by
  unfold twapGenerateOrderList at hgen
  rcases h1 : dateAt trade_dates (i - 1) with e | ts <;> rw [h1] at hgen
  · exact absurd (show (Except.error e : Except StrategyError (List Order)) = Except.ok l
      from hgen) (by simp)
  · rcases h2 : dateAt trade_dates i with e | te <;> rw [h2] at hgen
    · exact absurd (show (Except.error e : Except StrategyError (List Order)) = Except.ok l
        from hgen) (by simp)
    · exact ⟨ts, te, dateAt_ok_some trade_dates (i - 1) ts h1,
        dateAt_ok_some trade_dates i te h2, (Except.ok.inj hgen).symm⟩

/-- C10: every emitted child order copies `stock_id`, `direction` and `factor`
unchanged from a registered parent order, and its amount is the key's base
amount (TWAP; SBB when the effective trend is MID) or exactly twice it (SBB
non-MID doubling branches); no other amount is ever emitted. -/
theorem C10_child_fields (pred : StockId → Option Int → Option Int → Trend)
    (ol : List ParentOrder) (amt : TradeKey → Nat) (tr : TradeKey → Trend)
    (trade_dates : List Int) (i : Nat) (ts te : Int) :
    (∀ l, twapGenerateOrderList ol amt trade_dates i = Except.ok l → ∀ ord ∈ l,
      ∃ o ∈ ol, ord.stock_id = o.stock_id ∧ ord.direction = o.direction ∧
        ord.factor = o.factor ∧ ord.amount = amt (tradeKey o)) ∧
    (∀ l tr2, sbbGenerateOrderList pred ol amt tr trade_dates i ts te = Except.ok (l, tr2) →
      ∀ ord ∈ l, ∃ o ∈ ol, ord.stock_id = o.stock_id ∧ ord.direction = o.direction ∧
        ord.factor = o.factor ∧
        (ord.amount = amt (tradeKey o) ∨ ord.amount = 2 * amt (tradeKey o))) ∧
    (∀ (i2 : Nat) (t : Trend) (o : ParentOrder) (a : Nat) (ts2 te2 : Int) (ord : Order),
      ord ∈ sbbOrderEmission i2 t o a ts2 te2 →
      ord.stock_id = o.stock_id ∧ ord.direction = o.direction ∧ ord.factor = o.factor ∧
        ord.amount = if t = Trend.mid then a else 2 * a) := by
  refine ⟨?_, ?_, ?_⟩
  · intro l hgen ord hord
    obtain ⟨ts0, te0, h1, h2, hl⟩ := twapGenerateOrderList_ok_inv ol amt trade_dates i l hgen
    subst hl
    obtain ⟨o, ho, rfl⟩ := List.mem_map.mp hord
    exact ⟨o, ho, rfl, rfl, rfl, rfl⟩
  · intro l tr2 hgen ord hord
    have hloop := sbbGenerateOrderList_ok_inv pred ol amt tr trade_dates i ts te l tr2 hgen
    by_cases hodd : i % 2 = 1
    · rw [sbbLoop_odd_eq pred amt i ts te hodd] at hloop
      have h1 : [] ++ oddEmits pred amt i ts te ol = l := congrArg Prod.fst hloop
      rw [← h1, List.nil_append] at hord
      obtain ⟨o, ho, hmem⟩ := mem_oddEmits pred amt i ts te ord ol hord
      have hord2 := sbbOrderEmission_mem i _ o _ ts te ord hmem
      subst hord2
      refine ⟨o, ho, rfl, rfl, rfl, ?_⟩
      by_cases hmid : pred o.stock_id none none = Trend.mid <;> simp [hmid, mkChild]
    · rw [sbbLoop_even_eq pred amt i ts te hodd] at hloop
      have h1 : [] ++ evenEmits amt i ts te tr ol = l := congrArg Prod.fst hloop
      rw [← h1, List.nil_append] at hord
      obtain ⟨o, ho, hmem⟩ := mem_evenEmits amt i ts te tr ord ol hord
      have hord2 := sbbOrderEmission_mem i _ o _ ts te ord hmem
      subst hord2
      refine ⟨o, ho, rfl, rfl, rfl, ?_⟩
      by_cases hmid : tr (tradeKey o) = Trend.mid <;> simp [hmid, mkChild]
  · intro i2 t o a ts2 te2 ord hmem
    have hord2 := sbbOrderEmission_mem i2 t o a ts2 te2 ord hmem
    subst hord2
    exact ⟨rfl, rfl, rfl, rfl⟩

/-- Witness for C10: the TWAP conjunct evaluated at step 1 of the example. -/
theorem C10_child_fields_witness :
    twapGenerateOrderList [wOrder] wAmt wDates 1 = Except.ok wTwapList ∧
    (∀ ord ∈ wTwapList, ∃ o ∈ [wOrder], ord.stock_id = o.stock_id ∧
      ord.direction = o.direction ∧ ord.factor = o.factor ∧
      ord.amount = wAmt (tradeKey o)) :=
  ⟨rfl, (C10_child_fields wPredMid [wOrder] wAmt wTrMid wDates 1 0 10).1 wTwapList rfl⟩

end RuleStrategy
